import Mathlib

/- Verification of the tidy/hazelnut file organizer: version comparison,
theme rotation, path expansion (from src), and the rule engine, condition
matcher, debounce tracker, event log, daemon control and collision
resolution (modelled from the specification, whose implementing modules
are not present in the source tree). Strings are handled through their
character lists so that every definition evaluates by kernel reduction. -/

set_option maxHeartbeats 1000000
set_option maxRecDepth 4000

namespace Tidy

/-- Character-list test for a decimal digit, by code point. -/
def isDigitChar (c : Char) : Bool :=
  48 ≤ c.toNat && c.toNat ≤ 57

/-- Prefix test on strings, evaluated structurally on character lists. -/
def strStartsWith (s p : String) : Bool :=
  p.data.isPrefixOf s.data

/-- Suffix test on strings, evaluated structurally on character lists. -/
def strEndsWith (s p : String) : Bool :=
  p.data.reverse.isPrefixOf s.data.reverse

/-- Dropping the first n characters of a string. -/
def strDrop (s : String) (n : Nat) : String :=
  String.mk (s.data.drop n)

/-- Splitting a character list on the dot separator, as Rust's
split('.') does: "1..2" gives ["1", "", "2"] and "" gives [""]. -/
def splitOnDot : List Char → List (List Char)
  | [] => [[]]
  | '.' :: rest => [] :: splitOnDot rest
  | c :: rest =>
    match splitOnDot rest with
    | [] => [[c]]
    | g :: gs => (c :: g) :: gs

/-- Rust u32 parsing as used by str::parse inside version_is_newer: an
optional leading plus sign, then one or more decimal digits, value below
2^32; anything else fails. -/
def parseU32 (cs : List Char) : Option Nat :=
  let core := match cs with
    | '+' :: rest => rest
    | other => other
  if core.length != 0 && core.all isDigitChar then
    let n := core.foldl (fun acc c => acc * 10 + (c.toNat - 48)) 0
    if n < 4294967296 then some n else none
  else none

/-- Embeds the parse closure of version_is_newer (src/src/lib.rs lines
77-81): split on dots, keep only the components that parse as u32
(filter_map drops the failures). -/
def versionParts (v : String) : List Nat :=
  (splitOnDot v.data).filterMap parseU32

/-- Component access in the comparison loop of version_is_newer:
parts.get(i).copied().unwrap_or(0). -/
def versionComponent (v : String) (i : Nat) : Nat :=
  (versionParts v).getD i 0

/-- Embeds version_is_newer (src/src/lib.rs lines 76-97): the loop over
i in 0..3 with early returns, unrolled. -/
def version_is_newer (latest current : String) : Bool :=
  if versionComponent latest 0 > versionComponent current 0 then true
  else if versionComponent latest 0 < versionComponent current 0 then false
  else if versionComponent latest 1 > versionComponent current 1 then true
  else if versionComponent latest 1 < versionComponent current 1 then false
  else if versionComponent latest 2 > versionComponent current 2 then true
  else if versionComponent latest 2 < versionComponent current 2 then false
  else false

/-- Component access under the claim's reading of the code, kept for
comparison with the source embedding: a non-numeric component is treated
as 0 in place instead of being dropped. -/
def versionComponentClaimed (v : String) (i : Nat) : Nat :=
  ((splitOnDot v.data).map (fun s => (parseU32 s).getD 0)).getD i 0

/-- The claim's reading of version_is_newer, built on
versionComponentClaimed, kept for comparison with the source embedding. -/
def version_is_newer_claimed (latest current : String) : Bool :=
  if versionComponentClaimed latest 0 > versionComponentClaimed current 0 then true
  else if versionComponentClaimed latest 0 < versionComponentClaimed current 0 then false
  else if versionComponentClaimed latest 1 > versionComponentClaimed current 1 then true
  else if versionComponentClaimed latest 1 < versionComponentClaimed current 1 then false
  else if versionComponentClaimed latest 2 > versionComponentClaimed current 2 then true
  else if versionComponentClaimed latest 2 < versionComponentClaimed current 2 then false
  else false

/-- Embeds the Theme enum of src/src/theme.rs. -/
inductive Theme where
  | Dracula
  | OneDarkPro
  | Nord
  | CatppuccinMocha
  | CatppuccinLatte
  | GruvboxDark
  | GruvboxLight
  | TokyoNight
  | SolarizedDark
  | SolarizedLight
  | MonokaiPro
  | RosePine
  | Kanagawa
  | Everforest
  | Cyberpunk
deriving DecidableEq, Fintype

/-- Embeds Theme::all (src/src/theme.rs lines 52-70). -/
def Theme.all : List Theme :=
  [Theme.Dracula, Theme.OneDarkPro, Theme.Nord, Theme.CatppuccinMocha,
   Theme.CatppuccinLatte, Theme.GruvboxDark, Theme.GruvboxLight,
   Theme.TokyoNight, Theme.SolarizedDark, Theme.SolarizedLight,
   Theme.MonokaiPro, Theme.RosePine, Theme.Kanagawa, Theme.Everforest,
   Theme.Cyberpunk]

/-- Embeds Theme::next (src/src/theme.rs lines 73-77):
position(..).unwrap_or(0), then index at (current + 1) mod length. -/
def Theme.next (t : Theme) : Theme :=
  let themes := Theme.all
  let current := (themes.findIdx? (fun x => x == t)).getD 0
  themes.getD ((current + 1) % themes.length) Theme.Dracula

/-- PathBuf::join semantics on the POSIX string model: an absolute child
replaces the base, otherwise the child is appended with a separator
inserted when the base does not already end in one. -/
def pathJoin (base child : String) : String :=
  if strStartsWith child "/" then child
  else if strEndsWith base "/" then base ++ child
  else base ++ "/" ++ child

/-- Embeds expand_path (src/src/lib.rs lines 100-114) on the string form
of the path; the home directory (dirs::home_dir) is passed explicitly as
an optional value. -/
def expand_path (home : Option String) (path : String) : String :=
  if strStartsWith path "~/" then
    match home with
    | some h => pathJoin h (strDrop path 2)
    | none => path
  else if path = "~" then
    match home with
    | some h => h
    | none => path
  else path
/-- Matching one character against the body of a shell [...] class:
plain characters and lo-hi ranges. -/
def matchClassChars : List Char → Char → Bool
  | [], _ => false
  | lo :: '-' :: hi :: rest, c => (lo ≤ c && c ≤ hi) || matchClassChars rest c
  | x :: rest, c => (x == c) || matchClassChars rest c

/-- Position of the closing bracket of a character class, if any. -/
def closingIdx : List Char → Option Nat
  | [] => none
  | ']' :: _ => some 0
  | _ :: rest => (closingIdx rest).map (· + 1)

/-- Shell-style wildcard matching, structurally recursive on a fuel
bound so that concrete values reduce in the kernel; every recursive
call shrinks pattern plus string, so the fuel used by globMatch below
always suffices. -/
def globMatchAux : Nat → List Char → List Char → Bool
  | 0, _, _ => false
  | _ + 1, [], s => s.isEmpty
  | fuel + 1, '*' :: ps, [] => globMatchAux fuel ps []
  | fuel + 1, '*' :: ps, c :: cs =>
    globMatchAux fuel ps (c :: cs) || globMatchAux fuel ('*' :: ps) cs
  | fuel + 1, '?' :: ps, _ :: cs => globMatchAux fuel ps cs
  | fuel + 1, '[' :: ps, c :: cs =>
    match closingIdx ps with
    | some i =>
      (if (ps.take i).head? == some '!' then !(matchClassChars (ps.take i).tail c)
       else matchClassChars (ps.take i) c) && globMatchAux fuel (ps.drop (i + 1)) cs
    | none => false
  | fuel + 1, p :: ps, c :: cs => (p == c) && globMatchAux fuel ps cs
  | _ + 1, _ :: _, [] => false

/-- Modelled from the spec: shell-style wildcard matching for the
name_glob condition field (section 4.1; the rules module is absent from
the source tree): * matches any sequence, ? one character, [...] a
character class with ranges and leading ! negation, everything else is
literal. -/
def globMatch (p s : List Char) : Bool :=
  globMatchAux (p.length + s.length + 1) p s

/-- Lowercasing one ASCII character. -/
def charLower (c : Char) : Char :=
  if 65 ≤ c.toNat ∧ c.toNat ≤ 90 then Char.ofNat (c.toNat + 32) else c

/-- Modelled from the spec: case-insensitive extension comparison with
no leading dot required on the rule side (section 3, Condition); a file
without an extension fails every populated extension condition. -/
def extensionMatches (condExt : String) (fileExt : Option String) : Bool :=
  match fileExt with
  | none => false
  | some fe =>
    (match condExt.data with
      | '.' :: rest => rest
      | other => other).map charLower = fe.data.map charLower

/-- Metadata snapshot of one file as consumed by the Condition Matcher
(section 4.1): base name, extension, size in bytes, whole days since
modification at evaluation time, directory and hidden flags. -/
structure FileMeta where
  name : String
  extension : Option String
  size : Nat
  ageDays : Nat
  isDirectory : Bool
  isHidden : Bool
deriving DecidableEq

/-- Modelled from the spec: the Condition record (section 3), a record
of independently optional predicates. -/
structure Condition where
  extension : Option String
  name_glob : Option String
  name_regex : Option String
  size_greater : Option Nat
  size_less : Option Nat
  age_greater : Option Nat
  age_less : Option Nat
  is_directory : Option Bool
  is_hidden : Option Bool
deriving DecidableEq

/-- The Condition with every field None. -/
def Condition.empty : Condition :=
  ⟨none, none, none, none, none, none, none, none, none⟩

/-- Test of one optional condition field: an unpopulated field always
passes, a populated one must pass its predicate. -/
def optCheck {α : Type} (o : Option α) (p : α → Bool) : Bool :=
  match o with
  | none => true
  | some x => p x

/-- Regex semantics are external to this development (the spec leaves
the engine to a library); a matching environment supplies them. -/
structure MatchEnv where
  regexMatches : String → String → Bool

/-- Modelled from the spec: the Condition Matcher (section 4.1), a pure
conjunction over the populated fields, with glob and regex evaluated
against the base name only and exclusive size and age bounds. -/
def Condition.matches (env : MatchEnv) (c : Condition) (m : FileMeta) : Bool :=
  optCheck c.extension (fun e => extensionMatches e m.extension) &&
  optCheck c.name_glob (fun g => globMatch g.data m.name.data) &&
  optCheck c.name_regex (fun r => env.regexMatches r m.name) &&
  optCheck c.size_greater (fun n => decide (m.size > n)) &&
  optCheck c.size_less (fun n => decide (m.size < n)) &&
  optCheck c.age_greater (fun n => decide (m.ageDays > n)) &&
  optCheck c.age_less (fun n => decide (m.ageDays < n)) &&
  optCheck c.is_directory (fun b => m.isDirectory == b) &&
  optCheck c.is_hidden (fun b => m.isHidden == b)

/-- Modelled from the spec: the Action variants (section 3). -/
inductive Action where
  | Move (destination : String) (create_dirs : Bool)
  | Copy (destination : String) (create_dirs : Bool)
  | Rename (pat : String)
  | Trash
  | Delete
  | Run (command : String) (args : List String)
  | Archive (destination : String)
  | Nothing
deriving DecidableEq

/-- Modelled from the spec: a Rule (section 3). -/
structure Rule where
  name : String
  enabled : Bool
  conditions : Condition
  action : Action
deriving DecidableEq

/-- Modelled from the spec: the Rule Engine's iteration over the stored
rule list (section 4.3), carrying the running rule index. -/
def evaluateFrom (env : MatchEnv) (m : FileMeta) : Nat → List Rule → Option (Nat × Action)
  | _, [] => none
  | i, r :: rs =>
    if r.enabled && Condition.matches env r.conditions m then some (i, r.action)
    else evaluateFrom env m (i + 1) rs

/-- Modelled from the spec: evaluate(metadata, rules) returning the
index and Action of the first enabled rule whose conditions all hold,
disabled rules skipped (section 4.3). -/
def evaluate (env : MatchEnv) (m : FileMeta) (rules : List Rule) : Option (Nat × Action) :=
  evaluateFrom env m 0 rules

/-- Modelled from the spec: PathState (section 3), the Scan & Debounce
Tracker's per-path record: last observed (size, modified_time)
signature, count of additional consecutive unchanged scans, and the
last action timestamp used to suppress re-evaluation. -/
structure PathState where
  signature : Nat × Nat
  stableScans : Nat
  lastAction : Option Nat
deriving DecidableEq

/-- Modelled from the spec: one scan-cycle update of the Scan &
Debounce Tracker for one path (section 4.4). A new or changed signature
is stored with the stability counter reset to zero and no dispatch; an
unchanged signature bumps the counter, and the path is dispatched
exactly when the run of identical scans reaches the stability threshold
while no action has been recorded since the signature last changed, in
which case last_action_timestamp is set. Returns the new state and
whether the path is dispatched to the Rule Engine. -/
def debounceStep (threshold now : Nat) : Option PathState → Nat × Nat → PathState × Bool
  | none, sig => (⟨sig, 0, none⟩, false)
  | some ps, sig =>
    if ps.signature = sig then
      if threshold ≤ ps.stableScans + 2 ∧ ps.lastAction = none then
        (⟨sig, ps.stableScans + 1, some now⟩, true)
      else
        (⟨sig, ps.stableScans + 1, ps.lastAction⟩, false)
    else (⟨sig, 0, none⟩, false)

/-- Folding debounceStep over a sequence of (scan time, signature)
observations of one path, returning the per-scan dispatch decisions. -/
def debounceRun (threshold : Nat) : Option PathState → List (Nat × Nat × Nat) → List Bool
  | _, [] => []
  | st, (now, sig) :: rest =>
    (debounceStep threshold now st sig).2 ::
      debounceRun threshold (some (debounceStep threshold now st sig).1) rest

/-- Modelled from the spec: LogEntry levels (section 3). -/
inductive LogLevel where
  | Info
  | Success
  | Warning
  | Error
deriving DecidableEq

/-- Modelled from the spec: a LogEntry (section 3), never mutated after
creation. -/
structure LogEntry where
  timestamp : Nat
  level : LogLevel
  message : String
deriving DecidableEq

/-- Modelled from the spec: appending to the Event Log's fixed-capacity
ring buffer sized by log_retention (section 3): the entry is appended
and the oldest entries are silently evicted once capacity is
exceeded. -/
def ringAppend (cap : Nat) (buf : List LogEntry) (e : LogEntry) : List LogEntry :=
  if cap < (buf ++ [e]).length then
    (buf ++ [e]).drop ((buf ++ [e]).length - cap)
  else buf ++ [e]

/-- Modelled from the spec: a Watch record (section 3). -/
structure Watch where
  path : String
  recursive : Bool
deriving DecidableEq

/-- Modelled from the spec: the general settings consumed by the core
(section 6). -/
structure Settings where
  polling_interval_secs : Nat
  log_retention : Nat
  start_daemon_on_launch : Bool
  notifications_enabled : Bool
deriving DecidableEq

/-- Modelled from the spec: a configuration snapshot (section 6): an
ordered rule list, the watch list and general settings. -/
structure Config where
  rules : List Rule
  watches : List Watch
  settings : Settings
deriving DecidableEq

/-- Modelled from the spec: the daemon is Stopped or Running on a
configuration (sections 4.6 and 7). -/
inductive DaemonState where
  | Stopped
  | Running (cfg : Config)
deriving DecidableEq

/-- Modelled from the spec: the control requests that change the run
state (section 4.6). -/
inductive ControlRequest where
  | Start (src : String)
  | Stop
  | ReloadConfig (src : String)
deriving DecidableEq

/-- Modelled from the spec: serialized handling of one control request
(sections 4.6 and 7): Start parses the configuration source and
launches only from Stopped, ReloadConfig swaps the whole configuration
atomically, and a source that fails to parse leaves the daemon in its
previous state with the request reported unsuccessful. Returns the next
state and whether the request succeeded. -/
def handleControl (parse : String → Option Config) (s : DaemonState) :
    ControlRequest → DaemonState × Bool
  | ControlRequest.Start src =>
    match s with
    | DaemonState.Stopped =>
      match parse src with
      | some cfg => (DaemonState.Running cfg, true)
      | none => (DaemonState.Stopped, false)
    | DaemonState.Running c => (DaemonState.Running c, false)
  | ControlRequest.Stop => (DaemonState.Stopped, true)
  | ControlRequest.ReloadConfig src =>
    match parse src with
    | none => (s, false)
    | some cfg =>
      match s with
      | DaemonState.Running _ => (DaemonState.Running cfg, true)
      | DaemonState.Stopped => (DaemonState.Stopped, true)

/-- Decimal digit character of a value below ten. -/
def digitChar (n : Nat) : Char := Char.ofNat (48 + n)

/-- Decimal digits of a number, most significant first, by fuelled
structural recursion so that concrete values reduce in the kernel. -/
def natToDigitsAux : Nat → Nat → List Char → List Char
  | 0, _, acc => acc
  | fuel + 1, n, acc =>
    if n < 10 then digitChar n :: acc
    else natToDigitsAux fuel (n / 10) (digitChar (n % 10) :: acc)

/-- Decimal digits of a number, most significant first. -/
def natToDigits (n : Nat) : List Char := natToDigitsAux (n + 1) n []

/-- Decimal string of a number. -/
def natToStr (n : Nat) : String := String.mk (natToDigits n)

/-- Splitting a file name into stem and extension at the last dot; a
name without a dot has an empty extension. -/
def splitExtChars : List Char → List Char × List Char
  | [] => ([], [])
  | c :: rest =>
    if c == '.' && !(rest.contains '.') then ([], c :: rest)
    else ((splitExtChars rest).1.cons c, (splitExtChars rest).2)

/-- Modelled from the spec: the disambiguated candidate name, the
numeric disambiguator placed before the extension, file.txt becoming
file (1).txt (section 4.2). -/
def disambiguated (name : String) (i : Nat) : String :=
  String.mk (splitExtChars name.data).1 ++ " (" ++ natToStr i ++ ")" ++
    String.mk (splitExtChars name.data).2

/-- Search for the first free disambiguated name from a starting index,
with enough fuel to clear every taken name. -/
def findFreeName (existing : List String) (name : String) : Nat → Nat → String
  | 0, i => disambiguated name i
  | fuel + 1, i =>
    if disambiguated name i ∈ existing then findFreeName existing name fuel (i + 1)
    else disambiguated name i

/-- Modelled from the spec: destination-name resolution of the Action
Executor (section 4.2): under explicit overwrite semantics the desired
name is used as is; otherwise a clash with an existing destination name
is resolved by the first free numerically disambiguated name rather
than overwriting. -/
def resolveCollision (overwrite : Bool) (existing : List String) (name : String) : String :=
  if overwrite then name
  else if name ∈ existing then findFreeName existing name (existing.length + 1) 1
  else name

/-- Characterization of version_is_newer as a strict lexicographic
comparison of the first three components. -/
theorem version_is_newer_eq_true_iff (a b : String) :
    version_is_newer a b = true ↔
      versionComponent b 0 < versionComponent a 0 ∨
        (versionComponent a 0 = versionComponent b 0 ∧
          (versionComponent b 1 < versionComponent a 1 ∨
            (versionComponent a 1 = versionComponent b 1 ∧
              versionComponent b 2 < versionComponent a 2))) := by
  unfold version_is_newer
  split_ifs <;> simp_all <;> omega

/-- C8 (amended): version_is_newer is an irreflexive, asymmetric strict
comparison of the first three numeric version components; missing
components are treated as 0 (so "1.0" and "1.0.0" compare equal) and
components past the third are ignored; non-numeric components are
dropped before comparison, shifting later components left (in "1.x.5"
the second compared component is 5), not treated as 0 in place. -/
theorem version_is_newer_strict (v a b a' b' : String)
    (hab : version_is_newer a b = true)
    (ha : ∀ i, i < 3 → versionComponent a i = versionComponent a' i)
    (hb : ∀ i, i < 3 → versionComponent b i = versionComponent b' i) :
    version_is_newer v v = false ∧
    version_is_newer b a = false ∧
    version_is_newer a' b' = true ∧
    version_is_newer "1.0" "1.0.0" = false ∧
    version_is_newer "1.0.0" "1.0" = false ∧
    versionComponent "1.x.5" 1 = 5 ∧
    versionComponentClaimed "1.x.5" 1 = 0 := by
  refine ⟨?_, ?_, ?_, by decide, by decide, by decide, by decide⟩
  · unfold version_is_newer
    split_ifs <;> simp_all
  · rw [version_is_newer_eq_true_iff] at hab
    unfold version_is_newer
    split_ifs <;> simp_all <;> omega
  · rw [version_is_newer_eq_true_iff] at hab ⊢
    rw [← ha 0 (by omega), ← ha 1 (by omega), ← ha 2 (by omega),
      ← hb 0 (by omega), ← hb 1 (by omega), ← hb 2 (by omega)]
    exact hab

/-- Witness for version_is_newer_strict at concrete versions, with the
fourth components of the primed versions differing to exercise the
past-the-third-is-ignored conjunct. -/
theorem version_is_newer_strict_witness :
    version_is_newer "1.2.3" "1.2.3" = false ∧
    version_is_newer "1.9.9" "2.0.0" = false ∧
    version_is_newer "2.0.0.7" "1.9.9.8" = true := by
  have h := version_is_newer_strict "1.2.3" "2.0.0" "1.9.9" "2.0.0.7" "1.9.9.8"
    (by decide) (by decide) (by decide)
  exact ⟨h.1, h.2.1, h.2.2.1⟩

/-- C8 counterexample: the code's parse filters out a non-numeric
component ("x" in "1.x.5"), shifting the later components left, instead
of treating it as 0 in place as the claim states; on the pair
("1.x.5", "1.4.9") the code answers true while the claim's reading
answers false. -/
theorem version_is_newer_counterexample :
    version_is_newer "1.x.5" "1.4.9" = true ∧
    version_is_newer_claimed "1.x.5" "1.4.9" = false := by
  constructor <;> decide

/-- C9: Theme.next is a cyclic permutation of the full theme list: the
list has 15 entries, next always lands in the list, and 15 applications
of next return to the starting theme. -/
theorem theme_next_cyclic :
    Theme.all.length = 15 ∧
    ∀ t : Theme, Theme.next t ∈ Theme.all ∧ Theme.next^[15] t = t := by
  refine ⟨rfl, ?_⟩
  decide

/-- C10: expand_path only rewrites tilde prefixes: a path neither
starting with "~/" nor equal to "~" is returned unchanged; with a home
directory available, "~/rest" maps to home joined with rest and "~"
maps to home; with no home directory the input is returned unchanged. -/
theorem expand_path_tilde_only (home : Option String) (h p : String) :
    (strStartsWith p "~/" = false → p ≠ "~" → expand_path home p = p) ∧
    (home = some h → strStartsWith p "~/" = true →
      expand_path home p = pathJoin h (strDrop p 2)) ∧
    (home = some h → p = "~" → expand_path home p = h) ∧
    (home = none → expand_path home p = p) := by
  refine ⟨?_, ?_, ?_, ?_⟩
  · intro hs hne
    simp [expand_path, hs, hne]
  · intro hh hs
    subst hh
    simp [expand_path, hs]
  · intro hh hp
    subst hh
    subst hp
    simp [expand_path, show strStartsWith "~" "~/" = false from by decide]
  · intro hh
    subst hh
    unfold expand_path
    split <;> [rfl; (split <;> rfl)]

/-- Witness for expand_path_tilde_only covering all four branches at
concrete paths. -/
theorem expand_path_tilde_only_witness :
    expand_path (some "/home/u") "/tmp/a" = "/tmp/a" ∧
    expand_path (some "/home/u") "~/d/a.txt" = pathJoin "/home/u" (strDrop "~/d/a.txt" 2) ∧
    expand_path (some "/home/u") "~" = "/home/u" ∧
    expand_path none "~/d" = "~/d" := by
  have h1 := expand_path_tilde_only (some "/home/u") "/home/u" "/tmp/a"
  have h2 := expand_path_tilde_only (some "/home/u") "/home/u" "~/d/a.txt"
  have h3 := expand_path_tilde_only (some "/home/u") "/home/u" "~"
  have h4 := expand_path_tilde_only none "/home/u" "~/d"
  exact ⟨h1.1 (by decide) (by decide), h2.2.1 rfl (by decide),
    h3.2.2.1 rfl rfl, h4.2.2.2 rfl⟩


/-- Unpopulated optional fields always pass and populated ones must
pass their predicate. -/
theorem optCheck_eq_true {α : Type} (o : Option α) (p : α → Bool) :
    optCheck o p = true ↔ ∀ x ∈ o, p x = true := by
  cases o <;> simp [optCheck]

/-- C2: condition matching is a pure conjunction over independently
optional predicates: the matcher accepts exactly when every populated
field passes, an unpopulated field always passes, and the Condition
with every field None matches every file. -/
theorem condition_matches_conjunction (env : MatchEnv) (c : Condition) (m : FileMeta) :
    (Condition.matches env c m = true ↔
      ((∀ e ∈ c.extension, extensionMatches e m.extension = true) ∧
       (∀ g ∈ c.name_glob, globMatch g.data m.name.data = true) ∧
       (∀ r ∈ c.name_regex, env.regexMatches r m.name = true) ∧
       (∀ n ∈ c.size_greater, n < m.size) ∧
       (∀ n ∈ c.size_less, m.size < n) ∧
       (∀ n ∈ c.age_greater, n < m.ageDays) ∧
       (∀ n ∈ c.age_less, m.ageDays < n) ∧
       (∀ b ∈ c.is_directory, m.isDirectory = b) ∧
       (∀ b ∈ c.is_hidden, m.isHidden = b))) ∧
    Condition.matches env Condition.empty m = true := by
  constructor
  · simp only [Condition.matches, Bool.and_eq_true, optCheck_eq_true,
      decide_eq_true_eq, beq_iff_eq, gt_iff_lt, and_assoc]
  · rfl

/-- Witness for condition_matches_conjunction: the all-None Condition
accepts a concrete file. -/
theorem condition_matches_conjunction_witness :
    Condition.matches ⟨fun _ _ => false⟩ Condition.empty
      ⟨"x.bin", some "bin", 5, 3, false, true⟩ = true :=
  (condition_matches_conjunction ⟨fun _ _ => false⟩ Condition.empty
    ⟨"x.bin", some "bin", 5, 3, false, true⟩).2

/-- Rules that are disabled or fail their conditions are passed over,
advancing the running index. -/
theorem evaluateFrom_append (env : MatchEnv) (m : FileMeta) (l1 l2 : List Rule) :
    ∀ i, (∀ q ∈ l1, q.enabled = false ∨ Condition.matches env q.conditions m = false) →
      evaluateFrom env m i (l1 ++ l2) = evaluateFrom env m (i + l1.length) l2 := by
  induction l1 with
  | nil => intro i _; simp
  | cons r rs ih =>
    intro i h
    have hr : (r.enabled && Condition.matches env r.conditions m) = false := by
      rcases h r (by simp) with h1 | h1 <;> simp [h1]
    simp only [List.cons_append, evaluateFrom, hr, Bool.false_eq_true, if_false,
      List.append_eq]
    rw [ih (i + 1) (fun q hq => h q (by simp [hq]))]
    congr 1
    simp
    omega

/-- The running index only shifts the reported rule index. -/
theorem evaluateFrom_shift (env : MatchEnv) (m : FileMeta) (l : List Rule) :
    ∀ i, evaluateFrom env m i l =
      Option.map (fun p => (p.1 + i, p.2)) (evaluateFrom env m 0 l) := by
  induction l with
  | nil => intro i; rfl
  | cons r rs ih =>
    intro i
    by_cases hc : (r.enabled && Condition.matches env r.conditions m) = true
    · simp [evaluateFrom, hc]
    · simp only [evaluateFrom, hc, Bool.false_eq_true, if_false]
      rw [ih (i + 1), ih 1]
      cases evaluateFrom env m 0 rs with
      | none => rfl
      | some p => simp; omega

/-- C1: rule evaluation is first-match-wins: with every rule before r
disabled or failing and r enabled and matching, evaluate returns r's
index and Action; the rules after r never affect the result (any
suffix gives the same answer); and disabling r shifts evaluation to the
rules after it, so a different rule (if any) fires. -/
theorem evaluate_first_match_wins (env : MatchEnv) (m : FileMeta)
    (pre suf suf' : List Rule) (r : Rule)
    (hpre : ∀ q ∈ pre, q.enabled = false ∨ Condition.matches env q.conditions m = false)
    (hr : r.enabled = true) (hm : Condition.matches env r.conditions m = true) :
    evaluate env m (pre ++ r :: suf) = some (pre.length, r.action) ∧
    evaluate env m (pre ++ r :: suf') = some (pre.length, r.action) ∧
    evaluate env m (pre ++ { r with enabled := false } :: suf) =
      Option.map (fun p => (p.1 + (pre.length + 1), p.2)) (evaluate env m suf) := by
  have key : ∀ s : List Rule,
      evaluate env m (pre ++ r :: s) = some (pre.length, r.action) := by
    intro s
    unfold evaluate
    rw [evaluateFrom_append env m pre (r :: s) 0 hpre]
    simp [evaluateFrom, hr, hm]
  refine ⟨key suf, key suf', ?_⟩
  unfold evaluate
  rw [evaluateFrom_append env m pre _ 0 hpre]
  simp only [evaluateFrom, Bool.false_and, Bool.false_eq_true, if_false]
  rw [evaluateFrom_shift]
  simp

/-- Witness for evaluate_first_match_wins: a disabled rule, then a
matching Delete rule, then a further enabled rule; the Delete rule at
index 1 fires, with any suffix, and disabling it lets the last rule
fire instead. -/
theorem evaluate_first_match_wins_witness :
    evaluate ⟨fun _ _ => false⟩ ⟨"a.tmp", some "tmp", 10, 0, false, false⟩
      [⟨"off", false, Condition.empty, Action.Trash⟩,
       ⟨"del", true, Condition.empty, Action.Delete⟩,
       ⟨"later", true, Condition.empty, Action.Nothing⟩] = some (1, Action.Delete) ∧
    evaluate ⟨fun _ _ => false⟩ ⟨"a.tmp", some "tmp", 10, 0, false, false⟩
      [⟨"off", false, Condition.empty, Action.Trash⟩,
       ⟨"del", false, Condition.empty, Action.Delete⟩,
       ⟨"later", true, Condition.empty, Action.Nothing⟩] = some (2, Action.Nothing) := by
  have h := evaluate_first_match_wins ⟨fun _ _ => false⟩
    ⟨"a.tmp", some "tmp", 10, 0, false, false⟩
    [⟨"off", false, Condition.empty, Action.Trash⟩]
    [⟨"later", true, Condition.empty, Action.Nothing⟩] []
    ⟨"del", true, Condition.empty, Action.Delete⟩
    (by decide) rfl (by decide)
  exact ⟨h.1, h.2.2.trans (by decide)⟩

/-- Unfolding of debounceStep on a tracked path. -/
theorem debounceStep_some (t now : Nat) (ps : PathState) (sig : Nat × Nat) :
    debounceStep t now (some ps) sig =
      if ps.signature = sig then
        if t ≤ ps.stableScans + 2 ∧ ps.lastAction = none then
          (⟨sig, ps.stableScans + 1, some now⟩, true)
        else (⟨sig, ps.stableScans + 1, ps.lastAction⟩, false)
      else (⟨sig, 0, none⟩, false) := rfl

/-- Unfolding of debounceStep on a newly sighted path. -/
theorem debounceStep_none (t now : Nat) (sig : Nat × Nat) :
    debounceStep t now none sig = (⟨sig, 0, none⟩, false) := rfl

/-- A run whose every observed signature differs from the signature
stored at that point never dispatches. -/
theorem debounceRun_chain (t : Nat) :
    ∀ (obs : List (Nat × Nat × Nat)) (ps : PathState),
      (∀ o ∈ obs.head?, ps.signature ≠ o.2) →
      List.Chain' (fun a b => a.2 ≠ b.2) obs →
      debounceRun t (some ps) obs = List.replicate obs.length false := by
  intro obs
  induction obs with
  | nil => intro ps _ _; rfl
  | cons o rest ih =>
    intro ps h hc
    obtain ⟨now, sig⟩ := o
    have hne : ps.signature ≠ sig := h (now, sig) (by simp)
    have hstep : debounceStep t now (some ps) sig = (⟨sig, 0, none⟩, false) := by
      rw [debounceStep_some, if_neg hne]
    rw [List.chain'_cons'] at hc
    simp only [debounceRun, hstep, List.length_cons, List.replicate_succ]
    exact congrArg (false :: ·) (ih ⟨sig, 0, none⟩ (fun o' ho' => hc.1 o' ho') hc.2)

/-- C3: debounce never dispatches an unstable file: over any sequence
of scans in which consecutive signatures always differ, no scan
dispatches the path to the Rule Engine; moreover a changed signature,
or a newly seen path, stores the fresh signature with the stability
counter reset to zero, no recorded action, and no dispatch. -/
theorem debounce_unstable_never_dispatched (t now : Nat)
    (obs : List (Nat × Nat × Nat)) (sig : Nat × Nat) (ps : PathState)
    (hchain : List.Chain' (fun a b => a.2 ≠ b.2) obs)
    (hne : ps.signature ≠ sig) :
    debounceRun t none obs = List.replicate obs.length false ∧
    debounceStep t now (some ps) sig = (⟨sig, 0, none⟩, false) ∧
    debounceStep t now none sig = (⟨sig, 0, none⟩, false) := by
  refine ⟨?_, ?_, rfl⟩
  · cases obs with
    | nil => rfl
    | cons o rest =>
      obtain ⟨now', sig'⟩ := o
      rw [List.chain'_cons'] at hchain
      simp only [debounceRun, debounceStep_none, List.length_cons, List.replicate_succ]
      exact congrArg (false :: ·)
        (debounceRun_chain t rest ⟨sig', 0, none⟩ (fun o' ho' => hchain.1 o' ho') hchain.2)
  · rw [debounceStep_some, if_neg hne]

/-- Witness for debounce_unstable_never_dispatched: three scans with a
signature changing every time dispatch nothing, and the reset step
equation at concrete values. -/
theorem debounce_unstable_never_dispatched_witness :
    debounceRun 2 none [(0, 10, 1), (1, 12, 2), (2, 12, 3)] = [false, false, false] ∧
    debounceStep 2 7 (some ⟨(10, 1), 3, some 5⟩) (11, 1) = (⟨(11, 1), 0, none⟩, false) := by
  have h := debounce_unstable_never_dispatched 2 7
    [(0, 10, 1), (1, 12, 2), (2, 12, 3)] (11, 1) ⟨(10, 1), 3, some 5⟩
    (by simp [List.chain'_cons]) (by decide)
  exact ⟨h.1, h.2.1⟩

/-- Once an action has been recorded for the current signature, further
unchanged scans never dispatch. -/
theorem debounceRun_suppressed (t : Nat) (sig : Nat × Nat) :
    ∀ (times : List Nat) (c a : Nat),
      debounceRun t (some ⟨sig, c, some a⟩) (times.map (fun x => (x, sig))) =
        List.replicate times.length false := by
  intro times
  induction times with
  | nil => intro c a; rfl
  | cons x rest ih =>
    intro c a
    have hstep : debounceStep t x (some ⟨sig, c, some a⟩) sig =
        (⟨sig, c + 1, some a⟩, false) := by
      rw [debounceStep_some, if_pos rfl, if_neg (by simp)]
    simp only [List.map_cons, debounceRun, hstep, List.length_cons, List.replicate_succ]
    exact congrArg (false :: ·) (ih (c + 1) a)

/-- Growth of the stability counter on an unchanged signature: from a
state still short of the threshold with no recorded action, a constant
run dispatches exactly at the scan where the run of identical scans
reaches the threshold, and never afterwards. -/
theorem debounceRun_growth (t : Nat) (sig : Nat × Nat) :
    ∀ (times : List Nat) (c : Nat), c + 2 ≤ t →
      debounceRun t (some ⟨sig, c, none⟩) (times.map (fun x => (x, sig))) =
        if t ≤ times.length + c + 1 then
          List.replicate (t - c - 2) false ++
            true :: List.replicate (times.length + c + 1 - t) false
        else List.replicate times.length false := by
  intro times
  induction times with
  | nil =>
    intro c hc
    rw [if_neg (by simp; omega)]
    rfl
  | cons x rest ih =>
    intro c hc
    by_cases hd : t ≤ c + 2
    · have hstep : debounceStep t x (some ⟨sig, c, none⟩) sig =
          (⟨sig, c + 1, some x⟩, true) := by
        rw [debounceStep_some, if_pos rfl, if_pos ⟨hd, rfl⟩]
      have ht : t = c + 2 := by omega
      simp only [List.map_cons, debounceRun, hstep, debounceRun_suppressed]
      rw [if_pos (by simp; omega), ht]
      simp only [List.length_cons]
      rw [show c + 2 - c - 2 = 0 from by omega,
        show rest.length + 1 + c + 1 - (c + 2) = rest.length from by omega]
      rfl
    · have hstep : debounceStep t x (some ⟨sig, c, none⟩) sig =
          (⟨sig, c + 1, none⟩, false) := by
        rw [debounceStep_some, if_pos rfl, if_neg (by simp; omega)]
      simp only [List.map_cons, debounceRun, hstep]
      rw [ih (c + 1) (by omega)]
      by_cases h2 : t ≤ rest.length + (c + 1) + 1
      · rw [if_pos h2, if_pos (by simp; omega)]
        rw [show t - c - 2 = (t - c - 3) + 1 from by omega, List.replicate_succ]
        simp only [List.cons_append, List.length_cons]
        rw [show rest.length + (c + 1) + 1 - t = rest.length + 1 + c + 1 - t from by omega,
          show t - (c + 1) - 2 = t - c - 3 from by omega]
      · rw [if_neg h2, if_neg (by simp; omega), List.length_cons, List.replicate_succ]

/-- C4: a stable file is dispatched exactly once: with stability
threshold t at least 2 and a signature unchanged over at least t scans,
the path is dispatched exactly at the t-th scan and suppressed on every
subsequent tick, for one single dispatch overall; and a dispatching
step records the scan time as last_action_timestamp. -/
theorem debounce_stable_dispatched_once (t : Nat) (times : List Nat) (sig : Nat × Nat)
    (now : Nat) (ps : PathState)
    (ht : 2 ≤ t) (hn : t ≤ times.length)
    (hfire : (debounceStep t now (some ps) ps.signature).2 = true) :
    debounceRun t none (times.map (fun x => (x, sig))) =
      List.replicate (t - 1) false ++
        true :: List.replicate (times.length - t) false ∧
    (debounceRun t none (times.map (fun x => (x, sig)))).count true = 1 ∧
    (debounceStep t now (some ps) ps.signature).1.lastAction = some now := by
  have main : debounceRun t none (times.map (fun x => (x, sig))) =
      List.replicate (t - 1) false ++
        true :: List.replicate (times.length - t) false := by
    cases times with
    | nil => simp at hn; omega
    | cons x rest =>
      simp only [List.map_cons, debounceRun, debounceStep_none]
      rw [debounceRun_growth t sig rest 0 (by omega)]
      rw [if_pos (by simp at hn ⊢; omega)]
      rw [show t - 1 = (t - 2) + 1 from by omega, List.replicate_succ]
      simp only [List.cons_append, List.length_cons]
      rw [show t - 0 - 2 = t - 2 from by omega,
        show rest.length + 0 + 1 - t = rest.length + 1 - t from by omega]
  refine ⟨main, ?_, ?_⟩
  · rw [main]
    simp [List.count_replicate]
  · rw [debounceStep_some, if_pos rfl] at hfire ⊢
    by_cases hcond : t ≤ ps.stableScans + 2 ∧ ps.lastAction = none
    · rw [if_pos hcond]
    · rw [if_neg hcond] at hfire
      simp at hfire

/-- Witness for debounce_stable_dispatched_once: threshold 2, four
scans of an unchanged signature dispatch exactly at the second scan,
and a firing step stamps the scan time. -/
theorem debounce_stable_dispatched_once_witness :
    debounceRun 2 none [(3, 9, 9), (4, 9, 9), (5, 9, 9), (6, 9, 9)] =
      [false, true, false, false] ∧
    (debounceStep 2 4 (some ⟨(9, 9), 0, none⟩) (9, 9)).1.lastAction = some 4 := by
  have h := debounce_stable_dispatched_once 2 [3, 4, 5, 6] (9, 9) 4 ⟨(9, 9), 0, none⟩
    (by omega) (by decide) (by decide)
  exact ⟨h.1.trans (by decide), h.2.2⟩

/-- Folding ringAppend keeps exactly the most recent cap entries of the
appended stream, in order. -/
theorem ringAppend_foldl (cap : Nat) :
    ∀ (l buf : List LogEntry), buf.length ≤ cap →
      List.foldl (ringAppend cap) buf l =
        (buf ++ l).drop (buf.length + l.length - cap) := by
  intro l
  induction l with
  | nil =>
    intro buf h
    simp [Nat.sub_eq_zero_of_le h]
  | cons e rest ih =>
    intro buf h
    simp only [List.foldl_cons]
    have hlen1 : (buf ++ [e]).length = buf.length + 1 := by simp
    by_cases hc : cap < (buf ++ [e]).length
    · have hb : buf.length = cap := by omega
      have hstep : ringAppend cap buf e = (buf ++ [e]).drop 1 := by
        unfold ringAppend
        rw [if_pos hc]
        congr 1
        omega
      have ih' := ih ((buf ++ [e]).drop 1) (by
        rw [List.length_drop]
        omega)
      rw [hstep, ih']
      rw [← @List.drop_append_of_le_length _ (buf ++ [e]) rest 1 (by omega),
        List.drop_drop]
      rw [show buf ++ e :: rest = (buf ++ [e]) ++ rest from (List.append_assoc buf [e] rest).symm]
      congr 1
      rw [List.length_drop]
      simp only [List.length_cons]
      omega
    · have hstep : ringAppend cap buf e = buf ++ [e] := by
        unfold ringAppend
        rw [if_neg hc]
      have ih' := ih (buf ++ [e]) (by omega)
      rw [hstep, ih']
      rw [show buf ++ e :: rest = (buf ++ [e]) ++ rest from (List.append_assoc buf [e] rest).symm]
      congr 1
      simp only [List.length_cons]
      omega

/-- C5: the Event Log is a fixed-capacity ring buffer: appending
cap + k entries into an empty buffer of capacity cap leaves exactly the
cap newest entries, the k oldest evicted, in their original order. -/
theorem ring_buffer_retention (cap k : Nat) (entries : List LogEntry)
    (hlen : entries.length = cap + k) :
    List.foldl (ringAppend cap) [] entries = entries.drop k ∧
    (List.foldl (ringAppend cap) [] entries).length = cap := by
  have h := ringAppend_foldl cap entries [] (by simp)
  simp only [List.nil_append, List.length_nil, Nat.zero_add] at h
  rw [hlen, show cap + k - cap = k from by omega] at h
  refine ⟨h, ?_⟩
  rw [h]
  simp only [List.length_drop, hlen]
  omega

/-- Witness for ring_buffer_retention: capacity 2, three entries, the
oldest entry is evicted and the two newest remain in order. -/
theorem ring_buffer_retention_witness :
    List.foldl (ringAppend 2) []
      [⟨0, LogLevel.Info, "a"⟩, ⟨1, LogLevel.Success, "b"⟩, ⟨2, LogLevel.Error, "c"⟩] =
      [⟨1, LogLevel.Success, "b"⟩, ⟨2, LogLevel.Error, "c"⟩] := by
  have h := ring_buffer_retention 2 1
    [⟨0, LogLevel.Info, "a"⟩, ⟨1, LogLevel.Success, "b"⟩, ⟨2, LogLevel.Error, "c"⟩] rfl
  exact h.1.trans (by decide)

/-- C6: fatal configuration errors are atomic for the daemon state: a
source that fails to parse makes Start and ReloadConfig fail and leaves
the daemon exactly in its previous state, Stopped or Running on the
last good configuration. -/
theorem fatal_config_error_atomic (parse : String → Option Config)
    (s : DaemonState) (src : String) (h : parse src = none) :
    handleControl parse s (ControlRequest.Start src) = (s, false) ∧
    handleControl parse s (ControlRequest.ReloadConfig src) = (s, false) := by
  cases s <;> simp [handleControl, h]

/-- Witness for fatal_config_error_atomic: a parser that rejects
everything leaves a stopped daemon stopped with both requests failing. -/
theorem fatal_config_error_atomic_witness :
    handleControl (fun _ => none) DaemonState.Stopped (ControlRequest.Start "bad") =
      (DaemonState.Stopped, false) ∧
    handleControl (fun _ => none) DaemonState.Stopped (ControlRequest.ReloadConfig "bad") =
      (DaemonState.Stopped, false) :=
  fatal_config_error_atomic (fun _ => none) DaemonState.Stopped "bad" rfl

/-- Code point of a digit character. -/
theorem digitChar_toNat (d : Nat) (h : d < 10) : (digitChar d).toNat = 48 + d := by
  interval_cases d <;> decide

/-- The accumulator of natToDigitsAux is a pure suffix. -/
theorem natToDigitsAux_acc : ∀ (fuel n : Nat) (acc : List Char),
    natToDigitsAux fuel n acc = natToDigitsAux fuel n [] ++ acc := by
  intro fuel
  induction fuel with
  | zero => intro n acc; rfl
  | succ fuel ih =>
    intro n acc
    simp only [natToDigitsAux]
    by_cases h : n < 10
    · rw [if_pos h, if_pos h]
      rfl
    · rw [if_neg h, if_neg h, ih (n / 10) (digitChar (n % 10) :: acc),
        ih (n / 10) [digitChar (n % 10)]]
      simp

/-- Folding the decimal digits back recovers the encoded number. -/
theorem natToDigitsAux_foldl : ∀ (fuel n : Nat), n < fuel → ∀ a : Nat,
    List.foldl (fun acc c => acc * 10 + (c.toNat - 48)) a (natToDigitsAux fuel n []) =
      a * 10 ^ (natToDigitsAux fuel n []).length + n := by
  intro fuel
  induction fuel with
  | zero => intro n h _; exact absurd h (Nat.not_lt_zero n)
  | succ fuel ih =>
    intro n h a
    by_cases h10 : n < 10
    · simp only [natToDigitsAux, if_pos h10, List.foldl_cons, List.foldl_nil,
        List.length_cons, List.length_nil]
      rw [digitChar_toNat n h10]
      simp only [Nat.zero_add, pow_one]
      omega
    · simp only [natToDigitsAux, if_neg h10]
      rw [natToDigitsAux_acc fuel (n / 10) [digitChar (n % 10)], List.foldl_append]
      simp only [List.foldl_cons, List.foldl_nil]
      rw [ih (n / 10) (by omega) a, digitChar_toNat (n % 10) (by omega)]
      simp only [List.length_append, List.length_cons, List.length_nil, Nat.zero_add]
      rw [pow_succ, show 48 + n % 10 - 48 = n % 10 from by omega]
      have h2 : n / 10 * 10 + n % 10 = n := by omega
      have h3 : (a * 10 ^ (natToDigitsAux fuel (n / 10) []).length + n / 10) * 10 + n % 10 =
          a * (10 ^ (natToDigitsAux fuel (n / 10) []).length * 10) +
            (n / 10 * 10 + n % 10) := by ring
      rw [h3, h2]

/-- The decimal digit list determines the number. -/
theorem natToDigits_injective (i j : Nat) (h : natToDigits i = natToDigits j) : i = j := by
  have hi := natToDigitsAux_foldl (i + 1) i (by omega) 0
  have hj := natToDigitsAux_foldl (j + 1) j (by omega) 0
  have h' : natToDigitsAux (i + 1) i [] = natToDigitsAux (j + 1) j [] := h
  rw [h'] at hi
  omega

/-- The disambiguated names of one file name are pairwise distinct. -/
theorem disambiguated_injective (name : String) (i j : Nat)
    (h : disambiguated name i = disambiguated name j) : i = j := by
  have hd := congrArg String.data h
  simp only [disambiguated, String.data_append, List.append_assoc] at hd
  have h1 := List.append_cancel_left hd
  have h2 := List.append_cancel_left h1
  have h3 := List.append_cancel_right h2
  exact natToDigits_injective i j h3

/-- Among the first length-plus-one disambiguator indices there is a
name free of the existing ones. -/
theorem exists_free_disambiguated (existing : List String) (name : String) :
    ∃ i, 1 ≤ i ∧ i ≤ existing.length + 1 ∧ disambiguated name i ∉ existing := by
  by_contra hall
  push_neg at hall
  have hsub : ∀ i ∈ Finset.Icc 1 (existing.length + 1),
      disambiguated name i ∈ existing.toFinset := by
    intro i hi
    rw [Finset.mem_Icc] at hi
    rw [List.mem_toFinset]
    exact hall i hi.1 hi.2
  have hinj : Set.InjOn (disambiguated name) (Finset.Icc 1 (existing.length + 1)) :=
    fun a _ b _ hab => disambiguated_injective name a b hab
  have hcard := Finset.card_le_card_of_injOn (disambiguated name) hsub hinj
  rw [Nat.card_Icc] at hcard
  have hfin := existing.toFinset_card_le
  omega

/-- The fuelled search returns a name outside the existing list as soon
as its scanned range contains one. -/
theorem findFreeName_not_mem (existing : List String) (name : String) :
    ∀ (fuel start : Nat),
      (∃ i, start ≤ i ∧ i < start + fuel ∧ disambiguated name i ∉ existing) →
      findFreeName existing name fuel start ∉ existing := by
  intro fuel
  induction fuel with
  | zero =>
    intro start h
    obtain ⟨i, h1, h2, _⟩ := h
    exact absurd (Nat.lt_of_le_of_lt h1 h2) (by omega)
  | succ fuel ih =>
    intro start h
    obtain ⟨i, h1, h2, h3⟩ := h
    simp only [findFreeName]
    by_cases hc : disambiguated name start ∈ existing
    · rw [if_pos hc]
      apply ih (start + 1)
      refine ⟨i, ?_, by omega, h3⟩
      rcases Nat.eq_or_lt_of_le h1 with he | hlt
      · exact absurd (he ▸ hc) h3
      · omega
    · rw [if_neg hc]
      exact hc

/-- Collision resolution never lands on an existing destination name. -/
theorem resolveCollision_not_mem (existing : List String) (name : String) :
    resolveCollision false existing name ∉ existing := by
  unfold resolveCollision
  rw [if_neg (by simp)]
  by_cases hm : name ∈ existing
  · rw [if_pos hm]
    obtain ⟨i, h1, h2, h3⟩ := exists_free_disambiguated existing name
    exact findFreeName_not_mem existing name (existing.length + 1) 1 ⟨i, h1, by omega, h3⟩
  · rw [if_neg hm]
    exact hm

/-- C7: destination collisions never overwrite: resolving a name
against the existing destination entries, then resolving the same name
again with the first result recorded, yields two names that are not
among the existing entries and differ from each other; the
disambiguator is numeric and placed before the extension (file.txt
becomes file (1).txt); only explicit overwrite semantics returns the
name unchanged. -/
theorem collision_never_overwrites (existing : List String) (name n1 n2 : String)
    (ex : List String) (nm : String)
    (h1 : n1 = resolveCollision false existing name)
    (h2 : n2 = resolveCollision false (n1 :: existing) name) :
    n1 ∉ existing ∧ n2 ∉ existing ∧ n2 ≠ n1 ∧
    resolveCollision true ex nm = nm ∧
    resolveCollision false ["file.txt"] "file.txt" = "file (1).txt" := by
  subst h1
  subst h2
  have k1 := resolveCollision_not_mem existing name
  have k2 := resolveCollision_not_mem
    (resolveCollision false existing name :: existing) name
  refine ⟨k1, ?_, ?_, ?_, by decide⟩
  · intro hmem
    exact k2 (List.mem_cons_of_mem _ hmem)
  · intro heq
    exact k2 (by rw [heq]; exact List.mem_cons_self _ _)
  · unfold resolveCollision
    rw [if_pos rfl]

/-- Witness for collision_never_overwrites: two saves of a.txt into a
folder already holding a.txt produce a (1).txt then a (2).txt, both
fresh and distinct. -/
theorem collision_never_overwrites_witness :
    ("a (1).txt" : String) ∉ ["a.txt"] ∧ ("a (2).txt" : String) ∉ ["a.txt"] ∧
    ("a (2).txt" : String) ≠ "a (1).txt" ∧
    resolveCollision true ["x"] "y" = "y" ∧
    resolveCollision false ["file.txt"] "file.txt" = "file (1).txt" :=
  collision_never_overwrites ["a.txt"] "a.txt" "a (1).txt" "a (2).txt" ["x"] "y"
    (by decide) (by decide)

end Tidy
